import Mathlib

/-!
Verification of the gongwen (official-document) formatter
`scripts/gongwen_doc.py`.

The Python source is shallowly embedded below.  Text is modelled as
`String` / `List Char`; Python string primitives (`strip`, `splitlines`,
`split`, `startswith`, …) are re-implemented over `List Char` so that every
definition is executable and kernel-reducible.  Notes on fidelity:

* `str.strip()` is modelled over the ASCII whitespace characters
  (space, tab, newline, carriage return, vertical tab, form feed); the
  Unicode whitespace extras of Python are not modelled.
* `str.splitlines()` is modelled for the terminators `\n`, `\r\n`, `\r`;
  the exotic Unicode terminators are not modelled.
* `int(...)` is modelled for optionally signed decimal digit strings
  (underscore separators are not modelled); every unparseable string maps
  to the same fallback the Python `except ValueError` branch produces.
* The word-processor side effects (margins, exact line spacing, the XML
  page-number field) are renderer concerns; `build_document` is embedded
  as the list of styled segments it emits, in emission order.
-/

namespace Gongwen

/-- Whitespace set of Python `str.strip()` (ASCII part). -/
def isPySpace (c : Char) : Bool :=
  c == ' ' || c == '\t' || c == '\n' || c == '\r' || c == '\x0b' || c == '\x0c'

/-- Quote set of the Python `strip("\"'")` calls in the front-matter parser. -/
def isQuoteChar (c : Char) : Bool :=
  c == '"' || c == '\''

/-- Python `lstrip()` on a char list. -/
def pyLStripL (l : List Char) : List Char := l.dropWhile isPySpace

/-- Drop from the right end while the predicate holds. -/
def dropEndWhile (p : Char → Bool) (l : List Char) : List Char :=
  (l.reverse.dropWhile p).reverse

/-- Python `rstrip()` on a char list. -/
def pyRStripL (l : List Char) : List Char := dropEndWhile isPySpace l

/-- Python `strip()` on a char list. -/
def pyStripL (l : List Char) : List Char := pyRStripL (pyLStripL l)

/-- Python `strip()` on a string. -/
def pyStrip (s : String) : String := String.mk (pyStripL s.data)

/-- Python `strip("\"'")`: remove every leading and trailing quote character. -/
def stripQuotesL (l : List Char) : List Char :=
  dropEndWhile isQuoteChar (l.dropWhile isQuoteChar)

/-- Python `text.lstrip("﻿")`: drop leading byte-order marks. -/
def stripBOMdata (l : List Char) : List Char := l.dropWhile (· == '﻿')

/-- Is `p` a prefix of `l` (Python `startswith`)? -/
def isPre : List Char → List Char → Bool
  | [], _ => true
  | _ :: _, [] => false
  | a :: as, b :: bs => a == b && isPre as bs

/-- Python `str.splitlines()` for the terminators `\n`, `\r\n`, `\r`. -/
def pySplitlinesAux : List Char → List Char → List (List Char)
  | [], acc => if acc.isEmpty then [] else [acc.reverse]
  | '\r' :: '\n' :: rest, acc => acc.reverse :: pySplitlinesAux rest []
  | '\n' :: rest, acc => acc.reverse :: pySplitlinesAux rest []
  | '\r' :: rest, acc => acc.reverse :: pySplitlinesAux rest []
  | c :: rest, acc => pySplitlinesAux rest (c :: acc)

/-- Python `str.splitlines()` on a char list. -/
def pySplitlinesL (l : List Char) : List (List Char) := pySplitlinesAux l []

/-- Python `"\n".join(lines)`. -/
def joinNL : List (List Char) → List Char
  | [] => []
  | [l] => l
  | l :: rest => l ++ '\n' :: joinNL rest

/-- Python `line.split(":", 1)`: `none` when the line holds no colon. -/
def splitFirstColon : List Char → Option (List Char × List Char)
  | [] => none
  | c :: rest =>
    if c = ':' then some ([], rest)
    else
      match splitFirstColon rest with
      | none => none
      | some (a, b) => some (c :: a, b)

/-- Python `line.split("-", 1)[1]`: everything after the first dash. -/
def afterFirstDash : List Char → List Char
  | [] => []
  | c :: rest => if c = '-' then rest else afterFirstDash rest

/-- Python `inner.split(",")`. -/
def splitOnCommaL : List Char → List (List Char)
  | [] => [[]]
  | c :: rest =>
    let r := splitOnCommaL rest
    if c = ',' then [] :: r
    else
      match r with
      | [] => [[c]]
      | h :: t => (c :: h) :: t

/-- A front-matter value: a scalar string or an ordered string list. -/
inductive MetaVal
  | s (v : String)
  | l (vs : List String)
deriving DecidableEq

/-- The metadata mapping, in insertion order (Python `dict`). -/
def MetaD := List (String × MetaVal)

instance : DecidableEq MetaD := inferInstanceAs (DecidableEq (List (String × MetaVal)))

/-- Python `meta.get(key)`. -/
def metaLookup (m : MetaD) (k : String) : Option MetaVal :=
  (m.find? (fun p => p.1 == k)).map (fun p => p.2)

/-- Python `meta[key] = value` (existing keys keep their position). -/
def metaSet : MetaD → String → MetaVal → MetaD
  | [], k, v => [(k, v)]
  | (k2, v2) :: rest, k, v =>
    if k2 = k then (k, v) :: rest else (k2, v2) :: metaSet rest k v

/-- Python `meta.setdefault(key, []).append(item)` for the dash-list lines.
The scalar case is unreachable in the source (a list key is always opened
with `meta[key] = []` first); it is kept as a no-op to stay total. -/
def metaAppend : MetaD → String → String → MetaD
  | [], k, item => [(k, .l [item])]
  | (k2, v2) :: rest, k, item =>
    if k2 = k then
      match v2 with
      | .l vs => (k, .l (vs ++ [item])) :: rest
      | .s v => (k2, .s v) :: rest
    else (k2, v2) :: metaAppend rest k item

/-- Interior-line loop of `_parse_simple_front_matter` (source lines 203-245).
Arguments: remaining lines, accumulated metadata, currently open list key.
Returns the metadata and the lines strictly after the closing delimiter. -/
def fmLoop : List (List Char) → MetaD → Option String → MetaD × List (List Char)
  | [], m, _ => (m, [])
  | line :: rest, m, clk =>
    if pyStripL line = ['-', '-', '-'] then (m, rest)
    else if pyStripL line = [] || (pyLStripL line).head? == some '#' then
      fmLoop rest m clk
    else if isPre [' ', ' ', '-', ' '] line || isPre ['-', ' '] line then
      match clk with
      | some k =>
        let item := pyStripL (afterFirstDash line)
        if item ≠ [] then fmLoop rest (metaAppend m k (String.mk item)) clk
        else fmLoop rest m clk
      | none => fmLoop rest m clk
    else
      match splitFirstColon line with
      | some (k0, v0) =>
        let key := pyStripL k0
        let value := pyStripL v0
        if key = [] then fmLoop rest m none
        else if value = [] then
          fmLoop rest (metaSet m (String.mk key) (.l [])) (some (String.mk key))
        else if value.head? == some '[' && value.getLast? == some ']' then
          let inner := pyStripL ((value.drop 1).dropLast)
          let items : List String :=
            if inner = [] then []
            else
              (splitOnCommaL inner).filterMap (fun part =>
                if pyStripL part = [] then none
                else some (String.mk (stripQuotesL (pyStripL part))))
          fmLoop rest (metaSet m (String.mk key) (.l items)) none
        else
          fmLoop rest (metaSet m (String.mk key) (.s (String.mk (stripQuotesL value)))) none
      | none => fmLoop rest m none

/-- `_parse_simple_front_matter` (source lines 183-248). -/
def parseSimpleFrontMatter (text : String) : MetaD × String :=
  let stripped := stripBOMdata text.data
  if isPre ['-', '-', '-', '\n'] stripped || stripped == ['-', '-', '-'] then
    match pySplitlinesL stripped with
    | [] => ([], text)
    | l0 :: rest =>
      if pyStripL l0 ≠ ['-', '-', '-'] then ([], text)
      else
        let r := fmLoop rest [] none
        (r.1, String.mk (joinNL r.2))
  else ([], text)

/-- One parsed block of the controlled Markdown (source block dicts
`{"type": ..., "text": ...}`; a missing `type` key is modelled as `""`,
which is falsy in the source exactly like `None`). -/
structure Block where
  type_ : String
  text : String
deriving DecidableEq

/-- Length of the leading `#` run of a line. -/
def hashRun (l : List Char) : Nat := (l.takeWhile (· == '#')).length

/-- Per-line classification of `_parse_controlled_markdown`
(source lines 262-278), applied to a right-stripped non-blank line. -/
def classifyLine (line : List Char) : Block :=
  if line.head? == some '#' then
    let level := hashRun line
    if 1 ≤ level ∧ level ≤ 5 then
      let content := pyLStripL (line.drop level)
      if content ≠ [] then ⟨"h" ++ toString level, String.mk content⟩
      else ⟨"p", String.mk (pyStripL line)⟩
    else ⟨"p", String.mk (pyStripL line)⟩
  else ⟨"p", String.mk (pyStripL line)⟩

/-- The block parser of `_parse_controlled_markdown` (source lines 261-278). -/
def parseBlocks (bodyText : String) : List Block :=
  (pySplitlinesL bodyText.data).filterMap (fun raw =>
    let line := pyRStripL raw
    if pyStripL line = [] then none
    else some (classifyLine line))

/-- A Python value reaching a `data.get(...)` site: the key may be absent,
present with value `None`, a string, or a list of strings. -/
inductive FieldVal
  | absent
  | noneV
  | str (s : String)
  | list (l : List String)
deriving DecidableEq

/-- Python `str()` of a list of plain strings (no escaping modelled:
faithful for items free of quotes and backslashes). -/
def pyListRepr (l : List String) : String :=
  "[" ++ String.intercalate ", " (l.map (fun s => "'" ++ s ++ "'")) ++ "]"

/-- Python `str(data.get(key, ""))`. -/
def fvStr : FieldVal → String
  | .absent => ""
  | .noneV => "None"
  | .str s => s
  | .list l => pyListRepr l

/-- `_normalize_recipients` (source lines 141-146). -/
def normalizeRecipients : FieldVal → String
  | .absent => ""
  | .noneV => ""
  | .list l => String.intercalate "、"
      (l.filterMap (fun it => let s := pyStrip it; if s = "" then none else some s))
  | .str v => pyStrip v

/-- `_normalize_list` (source lines 149-155). -/
def normalizeList : FieldVal → List String
  | .absent => []
  | .noneV => []
  | .list l => l.filterMap (fun it => let s := pyStrip it; if s = "" then none else some s)
  | .str v => let t := pyStrip v; if t = "" then [] else [t]

/-- `_parse_body_text` (source lines 158-166). -/
def parseBodyText (t : String) : List String :=
  (pySplitlinesL t.data).filterMap (fun line =>
    let c := pyStripL line
    if c = [] then none else some (String.mk c))

/-- The `body` normalization at the top of `build_document`
(source lines 312-317). -/
def normalizeBody : FieldVal → List String
  | .str t => parseBodyText t
  | .list l => l.filterMap (fun it => let s := pyStrip it; if s = "" then none else some s)
  | _ => []

/-- The input record handed to `build_document` (the Python `data` dict). -/
structure InputData where
  title : FieldVal := .absent
  recipients : FieldVal := .absent
  body : FieldVal := .absent
  attachments : FieldVal := .absent
  signer : FieldVal := .absent
  date : FieldVal := .absent
  blocks : Option (List Block) := none
deriving DecidableEq

/-- Value of a front-matter key as it lands in the markdown `data` dict
(`meta.get(key)`: the key is present in the dict, possibly bound to `None`). -/
def fvOfMeta : Option MetaVal → FieldVal
  | none => .noneV
  | some (.s v) => .str v
  | some (.l vs) => .list vs

/-- `_parse_controlled_markdown` (source lines 251-295). -/
def parseControlledMarkdown (text : String) : InputData :=
  let r := parseSimpleFrontMatter text
  let blocks := parseBlocks r.2
  let title :=
    match blocks.find? (fun b => b.type_ == "h1") with
    | some b => pyStrip b.text
    | none => ""
  { title := .str title
    recipients := fvOfMeta (metaLookup r.1 "recipients")
    attachments := fvOfMeta (metaLookup r.1 "attachments")
    signer := fvOfMeta (metaLookup r.1 "signer")
    date := fvOfMeta (metaLookup r.1 "date")
    body := .absent
    blocks := some blocks }

/-! ### Quote normalization (`_normalize_quotes`, source lines 70-73)

`re.sub(r'"([^"\n]+)"', r"“\1”", text)` is embedded by a left-to-right
scanner: at each straight double quote, take the maximal following run of
characters that are neither `"` nor a newline; when that run is non-empty
and immediately closed by another straight quote, the pair is rewritten to
curly quotes and scanning resumes after the closing quote; otherwise the
quote is kept and scanning advances one character, exactly as `re.sub`
retries at the next position.  Fuel (bounded by the list length) keeps the
recursion structural so that the kernel can evaluate it. -/

def nqPred (c : Char) : Bool := !(c == '"') && !(c == '\n')

def nqFuel : Nat → List Char → List Char
  | _, [] => []
  | 0, l => l
  | fuel + 1, c :: rest =>
    if c = '"' then
      let content := rest.takeWhile nqPred
      let rem := rest.drop content.length
      if content ≠ [] ∧ rem.head? == some '"' then
        '“' :: (content ++ '”' :: nqFuel fuel rem.tail)
      else '"' :: nqFuel fuel rest
    else c :: nqFuel fuel rest

def nqL (l : List Char) : List Char := nqFuel l.length l

/-- `_normalize_quotes` on strings. -/
def normalizeQuotes (s : String) : String := String.mk (nqL s.data)

/-! ### Styled segments (the Style Resolution & Assembly Engine output) -/

/-- Structural role of a segment: which emission site of `build_document`
produced it. -/
inductive Role
  | title
  | recipient
  | body
  | attachment
  | signer
  | date
deriving DecidableEq

/-- Paragraph alignment (`WD_ALIGN_PARAGRAPH`). -/
inductive Align
  | left
  | center
  | right
  | justify
deriving DecidableEq

/-- A styled segment: a text paragraph with its typographic rule, a blank
separator paragraph, or the page-number footer. Sizes and indents are in
points (`Pt`). -/
inductive Seg
  | text (role : Role) (t : String) (font : String) (size : Nat) (bold : Bool)
      (align : Option Align) (firstLineIndent : Option Nat) (leftIndent : Option Nat)
  | blank
  | footer
deriving DecidableEq

def TITLE_FONT : String := "方正小标宋简体"
def BODY_FONT : String := "仿宋_GB2312"
def SUBTITLE_FONT : String := "楷体_GB2312"
def LEVEL1_FONT : String := "黑体"

def TITLE_SIZE : Nat := 22
def BODY_SIZE : Nat := 16
def TWO_CHAR_INDENT : Nat := 32

/-- `_add_text_paragraph` (source lines 76-88): normalizes quotes and sets
bold exactly when the font is the subtitle face. -/
def addTextParagraph (role : Role) (t : String) (font : String) (size : Nat)
    (align : Option Align) (fli : Option Nat) (li : Option Nat) : Seg :=
  .text role (normalizeQuotes t) font size (font == SUBTITLE_FONT) align fli li

/-- `_choose_font_for_paragraph` (source lines 132-138). -/
def chooseFontForParagraph (t : String) : String :=
  if (match (pyStripL t.data).head? with
      | some c => ['一', '二', '三', '四', '五', '六', '七', '八', '九', '十'].contains c
      | none => false) && ((pyStripL t.data).take 3).contains '、' then LEVEL1_FONT
  else if (pyStripL t.data).head? == some '（' && ((pyStripL t.data).take 4).contains '）' then
    SUBTITLE_FONT
  else BODY_FONT

/-- Heading typographic rule. -/
structure HStyle where
  font : String
  size : Nat
  align : Align
  indent : Option Nat
deriving DecidableEq

/-- `HEADING_STYLE_MAP` (source lines 42-48). -/
def headingStyleMap (level : Int) : Option HStyle :=
  if level = 1 then some ⟨TITLE_FONT, TITLE_SIZE, .center, none⟩
  else if level = 2 then some ⟨LEVEL1_FONT, BODY_SIZE, .left, some TWO_CHAR_INDENT⟩
  else if level = 3 then some ⟨SUBTITLE_FONT, BODY_SIZE, .left, some TWO_CHAR_INDENT⟩
  else if level = 4 then some ⟨BODY_FONT, BODY_SIZE, .left, some TWO_CHAR_INDENT⟩
  else if level = 5 then some ⟨BODY_FONT, BODY_SIZE, .left, some TWO_CHAR_INDENT⟩
  else none

def digitsVal (ds : List Char) : Int :=
  ds.foldl (fun a c => a * 10 + (Int.ofNat (c.toNat - '0'.toNat))) 0

/-- Python `int(s)` for optionally signed decimal strings; `none` models
the `ValueError` branch. -/
def pyIntParse (s : String) : Option Int :=
  match pyStripL s.data with
  | [] => none
  | '+' :: ds => if ds ≠ [] ∧ ds.all (·.isDigit) then some (digitsVal ds) else none
  | '-' :: ds => if ds ≠ [] ∧ ds.all (·.isDigit) then some (-(digitsVal ds)) else none
  | ds => if ds.all (·.isDigit) then some (digitsVal ds) else none

/-- Rendering of one non-first-h1 body block (source lines 381-412);
`(pyIntParse (btype.drop 1)).getD 0` is the `int(btype[1:])` with the
`ValueError` fallback to level 0. -/
def renderBlock (btype : String) (text : String) : Seg :=
  if btype ≠ "" ∧ btype.data.head? == some 'h' then
    match headingStyleMap ((pyIntParse (btype.drop 1)).getD 0) with
    | some st =>
      if ((pyIntParse (btype.drop 1)).getD 0 : Int) ≠ 1 then
        addTextParagraph .body text st.font st.size (some st.align) st.indent none
      else
        addTextParagraph .body text BODY_FONT BODY_SIZE none (some TWO_CHAR_INDENT) none
    | none =>
      addTextParagraph .body text BODY_FONT BODY_SIZE none (some TWO_CHAR_INDENT) none
  else
    addTextParagraph .body text BODY_FONT BODY_SIZE (some .justify) (some TWO_CHAR_INDENT) none

/-- Title section of the blocks path (source lines 327-357): render the
first `h1` block, falling back to the scalar `title` field. -/
def titlePart (blocks : List Block) (title : String) : List Seg :=
  match blocks.find? (fun b => b.type_ == "h1") with
  | some b =>
    if pyStrip b.text ≠ "" then
      [addTextParagraph .title (pyStrip b.text) TITLE_FONT TITLE_SIZE (some .center) none none,
        .blank]
    else if title ≠ "" then
      [addTextParagraph .title title TITLE_FONT TITLE_SIZE (some .center) none none, .blank]
    else []
  | none =>
    if title ≠ "" then
      [addTextParagraph .title title TITLE_FONT TITLE_SIZE (some .center) none none, .blank]
    else []

/-- Recipient line (source lines 360-367 and 425-432). -/
def recipientPart (recipients : String) : List Seg :=
  if recipients ≠ "" then
    [addTextParagraph .recipient (recipients ++ "：") BODY_FONT BODY_SIZE (some .left) none none]
  else []

/-- Body loop of the blocks path (source lines 369-412); the Boolean is the
`skipped_first_h1` flag. -/
def blocksBody : List Block → Bool → List Seg
  | [], _ => []
  | b :: rest, skipped =>
    if pyStrip b.text = "" then blocksBody rest skipped
    else if b.type_ == "h1" && !skipped then blocksBody rest true
    else renderBlock b.type_ (pyStrip b.text) :: blocksBody rest skipped

/-- Body loop of the flat path (source lines 434-447). -/
def flatBodySegs (body : List String) : List Seg :=
  body.map (fun t =>
    addTextParagraph .body t (chooseFontForParagraph t) BODY_SIZE
      (some (if chooseFontForParagraph t == BODY_FONT then Align.justify else Align.left))
      (some TWO_CHAR_INDENT) none)

/-- Attachment section (source lines 449-468). -/
def attachPart (attachments : List String) : List Seg :=
  match attachments with
  | [] => []
  | [a] =>
    [.blank,
     addTextParagraph .attachment ("附件：" ++ a) BODY_FONT BODY_SIZE none none
       (some TWO_CHAR_INDENT)]
  | _ =>
    .blank :: attachments.enum.map (fun p =>
      addTextParagraph .attachment
        ((if p.1 + 1 = 1 then "附件：" else "    ") ++ toString (p.1 + 1) ++ ". " ++ p.2)
        BODY_FONT BODY_SIZE none none (some TWO_CHAR_INDENT))

/-- Signer and date section (source lines 470-487). -/
def signDatePart (signer date : String) : List Seg :=
  if signer ≠ "" ∨ date ≠ "" then
    .blank ::
      ((if signer ≠ "" then
          [addTextParagraph .signer signer BODY_FONT BODY_SIZE (some .right) none none]
        else []) ++
       (if date ≠ "" then
          [addTextParagraph .date date BODY_FONT BODY_SIZE (some .right) none none]
        else []))
  else []

/-- `build_document` (source lines 303-490), as the ordered list of styled
segments it emits (margins, spacing and the file save are renderer-side). -/
def buildDocument (data : InputData) : List Seg :=
  let title := pyStrip (fvStr data.title)
  let recipients := normalizeRecipients data.recipients
  let body := normalizeBody data.body
  let attachments := normalizeList data.attachments
  let signer := pyStrip (fvStr data.signer)
  let date := pyStrip (fvStr data.date)
  let headSegs :=
    match data.blocks with
    | some (b :: bs) =>
      titlePart (b :: bs) title ++ recipientPart recipients ++ blocksBody (b :: bs) false
    | _ =>
      (if title ≠ "" then
        [addTextParagraph .title title TITLE_FONT TITLE_SIZE (some .center) none none, .blank]
       else []) ++
      recipientPart recipients ++ flatBodySegs body
  headSegs ++ attachPart attachments ++ signDatePart signer date ++ [.footer]

/-- Role projection of a segment. -/
def roleOf? : Seg → Option Role
  | .text r _ _ _ _ _ _ _ => some r
  | _ => none

/-- Font projection of a segment. -/
def fontOf? : Seg → Option String
  | .text _ _ f _ _ _ _ _ => some f
  | _ => none

/-- Text projection of a segment. -/
def textOf? : Seg → Option String
  | .text _ t _ _ _ _ _ _ => some t
  | _ => none

/-- Sub-sequence of the emitted segments carrying a given role. -/
def segsWithRole (r : Role) (l : List Seg) : List Seg :=
  l.filter (fun s => roleOf? s == some r)

/-! ### Generic helper lemmas -/

theorem dropWhile_append_all {p : Char → Bool} :
    ∀ {xs : List Char} (ys : List Char), (∀ x ∈ xs, p x = true) →
      (xs ++ ys).dropWhile p = ys.dropWhile p := by
  intro xs
  induction xs with
  | nil => intro ys _; rfl
  | cons a as ih =>
    intro ys h
    have ha : p a = true := h a (by simp)
    simp only [List.cons_append, List.dropWhile_cons, ha, if_true]
    exact ih ys (fun x hx => h x (by simp [hx]))

theorem dropWhile_eq_self_of_head {p : Char → Bool} {l : List Char}
    (h : ∀ c, l.head? = some c → p c = false) : l.dropWhile p = l := by
  cases l with
  | nil => rfl
  | cons a as =>
    have := h a rfl
    simp [List.dropWhile_cons, this]

theorem length_dropWhile_le' (p : Char → Bool) :
    ∀ l : List Char, (l.dropWhile p).length ≤ l.length := by
  intro l
  induction l with
  | nil => simp
  | cons a as ih =>
    by_cases h : p a = true
    · simp only [List.dropWhile_cons, h, if_true]
      exact Nat.le_succ_of_le ih
    · simp [List.dropWhile_cons, h]

theorem head_false_of_dropWhile_eq_self {p : Char → Bool} {l : List Char}
    (h : l.dropWhile p = l) : ∀ c, l.head? = some c → p c = false := by
  intro c hc
  cases l with
  | nil => simp at hc
  | cons a as =>
    have hac : a = c := by simpa using hc
    subst hac
    by_contra hp
    have hp2 : p a = true := by revert hp; cases p a <;> simp
    simp only [List.dropWhile_cons, hp2, if_true] at h
    have hlen := length_dropWhile_le' p as
    rw [h] at hlen
    simp at hlen

theorem takeWhile_append_sat {p : Char → Bool} :
    ∀ {xs : List Char} (y : Char) (ys : List Char),
      (∀ x ∈ xs, p x = true) → p y = false →
      ((xs ++ y :: ys).takeWhile p) = xs := by
  intro xs
  induction xs with
  | nil => intro y ys _ hy; simp [List.takeWhile_cons, hy]
  | cons a as ih =>
    intro y ys h hy
    have ha : p a = true := h a (by simp)
    simp only [List.cons_append, List.takeWhile_cons, ha, if_true]
    rw [ih y ys (fun x hx => h x (by simp [hx])) hy]

theorem dropEndWhile_eq_self {p : Char → Bool} {l : List Char}
    (h : ∀ c, l.getLast? = some c → p c = false) : dropEndWhile p l = l := by
  unfold dropEndWhile
  rw [dropWhile_eq_self_of_head, List.reverse_reverse]
  intro c hc
  exact h c (by rwa [List.head?_reverse] at hc)

theorem getLast?_false_of_dropEnd_self {p : Char → Bool} {l : List Char}
    (h : dropEndWhile p l = l) : ∀ c, l.getLast? = some c → p c = false := by
  intro c hc
  unfold dropEndWhile at h
  have h2 : l.reverse.dropWhile p = l.reverse := by
    have := congrArg List.reverse h
    rwa [List.reverse_reverse] at this
  exact head_false_of_dropWhile_eq_self h2 c (by rwa [List.head?_reverse])

theorem dropEndWhile_append_all {p : Char → Bool} {xs ys : List Char}
    (hy : ∀ x ∈ ys, p x = true) (hx : ∀ c, xs.getLast? = some c → p c = false) :
    dropEndWhile p (xs ++ ys) = xs := by
  unfold dropEndWhile
  rw [List.reverse_append, dropWhile_append_all _ (by intro x hx2; exact hy x (by simpa using hx2))]
  rw [dropWhile_eq_self_of_head (by intro c hc; exact hx c (by rwa [List.head?_reverse] at hc))]
  exact List.reverse_reverse xs

/-! ### Lemmas about the quote-normalization scanner -/

theorem nqFuel_nil (f : Nat) : nqFuel f [] = [] := by cases f <;> rfl

theorem nqFuel_congr :
    ∀ (f : Nat) (g : Nat) (l : List Char), l.length ≤ f → l.length ≤ g →
      nqFuel f l = nqFuel g l := by
  intro f
  induction f with
  | zero =>
    intro g l hf _
    have : l = [] := by cases l <;> simp_all
    subst this
    simp [nqFuel_nil]
  | succ f ih =>
    intro g l hf hg
    cases l with
    | nil => simp [nqFuel_nil]
    | cons c rest =>
      cases g with
      | zero => simp at hg
      | succ g =>
        simp only [nqFuel]
        by_cases hc : c = '"'
        · simp only [hc, if_true]
          set content := rest.takeWhile nqPred with hcontent
          set rem := rest.drop content.length with hrem
          have hlrest : rest.length ≤ f := by simp at hf; omega
          have hgrest : rest.length ≤ g := by simp at hg; omega
          have hlrem : rem.tail.length ≤ rest.length := by
            rw [hrem, List.length_tail, List.length_drop]; omega
          by_cases h2 : content ≠ [] ∧ rem.head? == some '"'
          · simp only [h2, and_self, if_pos]
            rw [ih g rem.tail (le_trans hlrem hlrest) (le_trans hlrem hgrest)]
            simp [h2]
          · rw [if_neg h2, if_neg h2, ih g rest hlrest hgrest]
        · simp only [hc, if_false]
          have hlrest : rest.length ≤ f := by simp at hf; omega
          have hgrest : rest.length ≤ g := by simp at hg; omega
          rw [ih g rest hlrest hgrest]

theorem nqL_nil : nqL [] = [] := rfl

theorem nqL_cons_ne {c : Char} (rest : List Char) (h : c ≠ '"') :
    nqL (c :: rest) = c :: nqL rest := by
  unfold nqL
  show nqFuel (rest.length + 1) (c :: rest) = c :: nqFuel rest.length rest
  simp [nqFuel, h]

theorem nqL_quote_pair (content suf : List Char)
    (h1 : ∀ x ∈ content, nqPred x = true) (h2 : content ≠ []) :
    nqL ('"' :: (content ++ '"' :: suf)) = '“' :: content ++ '”' :: nqL suf := by
  unfold nqL
  show nqFuel ((content ++ '"' :: suf).length + 1) ('"' :: (content ++ '"' :: suf)) = _
  simp only [nqFuel, if_pos rfl]
  have htake : (content ++ '"' :: suf).takeWhile nqPred = content :=
    takeWhile_append_sat '"' suf h1 (by simp [nqPred])
  rw [htake, List.drop_left]
  simp only [h2, List.head?_cons, beq_self_eq_true, and_self, if_pos, ne_eq,
    not_false_eq_true, List.tail_cons]
  have heq : nqFuel (content ++ '"' :: suf).length suf = nqL suf := by
    apply nqFuel_congr
    · simp; omega
    · simp
  rw [heq]
  simp
  rfl

theorem nqL_no_quote {l : List Char} (h : '"' ∉ l) : nqL l = l := by
  induction l with
  | nil => rfl
  | cons c rest ih =>
    have hc : c ≠ '"' := by intro hc; exact h (by simp [hc])
    rw [nqL_cons_ne rest hc, ih (by intro hr; exact h (by simp [hr]))]

theorem nqL_append_quote_end {xs : List Char} (h : '"' ∉ xs) :
    nqL (xs ++ ['"']) = xs ++ ['"'] := by
  induction xs with
  | nil =>
    show nqL ['"'] = ['"']
    unfold nqL
    simp [nqFuel, nqFuel_nil]
  | cons c rest ih =>
    have hc : c ≠ '"' := by intro hc; exact h (by simp [hc])
    rw [List.cons_append, nqL_cons_ne _ hc, ih (by intro hr; exact h (by simp [hr]))]

/-! ### Lemmas about the front-matter parser -/

theorem isPre_iff : ∀ (p l : List Char), isPre p l = true ↔ ∃ r, l = p ++ r := by
  intro p
  induction p with
  | nil => intro l; simp [isPre]
  | cons a as ih =>
    intro l
    cases l with
    | nil => simp [isPre]
    | cons b bs =>
      simp only [isPre, List.cons_append, Bool.and_eq_true, beq_iff_eq, List.cons.injEq, ih bs]
      constructor
      · rintro ⟨rfl, r, rfl⟩; exact ⟨r, rfl, rfl⟩
      · rintro ⟨r, rfl, rfl⟩; exact ⟨rfl, r, rfl⟩

theorem splitlines_dash_head (r : List Char) :
    pySplitlinesL (['-', '-', '-', '\n'] ++ r) = ['-', '-', '-'] :: pySplitlinesL r := rfl

theorem fmLoop_no_close (lines : List (List Char)) :
    ∀ (m : MetaD) (clk : Option String),
      (∀ ln ∈ lines, pyStripL ln ≠ ['-', '-', '-']) → (fmLoop lines m clk).2 = [] := by
  induction lines with
  | nil => intro m clk _; rfl
  | cons line rest ih =>
    intro m clk h
    have h1 : ¬ pyStripL line = ['-', '-', '-'] := h line (by simp)
    have h2 : ∀ ln ∈ rest, pyStripL ln ≠ ['-', '-', '-'] := fun ln hln => h ln (by simp [hln])
    simp only [fmLoop, if_neg h1]
    repeat' split
    all_goals exact ih _ _ h2

/-- C5: for every input text that does not begin (after stripping a
byte-order mark) with a delimiter line consisting solely of three dashes,
the front-matter parser returns empty metadata and the original text
completely unchanged. -/
theorem spec_c5 (t : String)
    (h : (pySplitlinesL (stripBOMdata t.data)).head? ≠ some ['-', '-', '-']) :
    parseSimpleFrontMatter t = ([], t) := by
  have hA : isPre ['-', '-', '-', '\n'] (stripBOMdata t.data) = false := by
    cases hA0 : isPre ['-', '-', '-', '\n'] (stripBOMdata t.data) with
    | false => rfl
    | true =>
      obtain ⟨r, hr⟩ := (isPre_iff _ _).1 hA0
      rw [hr, splitlines_dash_head] at h
      simp at h
  have hB : (stripBOMdata t.data == ['-', '-', '-']) = false := by
    cases hB0 : stripBOMdata t.data == ['-', '-', '-'] with
    | false => rfl
    | true =>
      have := eq_of_beq hB0
      rw [this] at h
      simp [pySplitlinesL, pySplitlinesAux] at h
  simp [parseSimpleFrontMatter, hA, hB]

/-- Witness for C5 at a concrete input. -/
theorem spec_c5_witness : parseSimpleFrontMatter "hello\nworld" = ([], "hello\nworld") :=
  spec_c5 "hello\nworld" (by decide)

/-- C7: when the text opens with the front-matter delimiter but no closing
delimiter line ever occurs, parsing terminates, every consumed line is
processed under the interior-line rules, and the remaining text is empty. -/
theorem spec_c7 (t : String)
    (hopen : isPre ['-', '-', '-', '\n'] (stripBOMdata t.data) = true ∨
      stripBOMdata t.data = ['-', '-', '-'])
    (hnc : ∀ ln ∈ (pySplitlinesL (stripBOMdata t.data)).drop 1, pyStripL ln ≠ ['-', '-', '-']) :
    (parseSimpleFrontMatter t).2 = "" := by
  rcases hopen with hpre | heq
  · obtain ⟨r, hr⟩ := (isPre_iff _ _).1 hpre
    rw [hr, splitlines_dash_head] at hnc
    simp only [List.drop_succ_cons, List.drop_zero] at hnc
    unfold parseSimpleFrontMatter
    rw [hr]
    have hcond : isPre ['-', '-', '-', '\n'] (['-', '-', '-', '\n'] ++ r) = true :=
      (isPre_iff _ _).2 ⟨r, rfl⟩
    simp only [hcond, Bool.true_or, if_true, splitlines_dash_head]
    have hd : ¬ pyStripL ['-', '-', '-'] ≠ ['-', '-', '-'] := by decide
    simp only [hd, if_false, if_neg hd]
    simp only [fmLoop_no_close _ _ _ hnc]
    rfl
  · unfold parseSimpleFrontMatter
    rw [heq]
    rfl

/-- Witness for C7 at a concrete input. -/
theorem spec_c7_witness : (parseSimpleFrontMatter "---\nsigner: Zhang").2 = "" :=
  spec_c7 "---\nsigner: Zhang" (Or.inl (by decide)) (by decide)

/-- C2 counterexample: the front-matter parser strips every layer of
surrounding quotes from an inline-list item, so `""a""` parses to `a`
rather than retaining one inner layer of quotes. -/
theorem spec_c2_counterexample :
    (parseSimpleFrontMatter "---\nk: [\"\"a\"\"]\n---\nrest").1 = [("k", MetaVal.l ["a"])] ∧
      (["a"] : List String) ≠ ["\"a\""] := by
  constructor
  · decide
  · decide

/-- C2 (amended): every inline-list item and scalar value is trimmed and
then stripped of all surrounding quote characters (any mix of double and
single quotes), not of exactly one layer; interior quote characters are
preserved. -/
theorem spec_c2 :
    (∀ (s q1 q2 : List Char),
        (∀ c ∈ q1, isQuoteChar c = true) → (∀ c ∈ q2, isQuoteChar c = true) →
        (∀ c, s.head? = some c → isQuoteChar c = false) →
        (∀ c, s.getLast? = some c → isQuoteChar c = false) →
        stripQuotesL (q1 ++ s ++ q2) = s) ∧
      (parseSimpleFrontMatter "---\nk: \"\"b\"\"\n---").1 = [("k", MetaVal.s "b")] := by
  constructor
  · intro s q1 q2 hq1 hq2 hh hl
    unfold stripQuotesL
    cases s with
    | nil =>
      rw [List.append_nil]
      have : (q1 ++ q2).dropWhile isQuoteChar = [] := by
        have h0 : ∀ x ∈ q1 ++ q2, isQuoteChar x = true := by
          intro x hx
          rcases List.mem_append.1 hx with h | h
          exacts [hq1 x h, hq2 x h]
        have h1 := dropWhile_append_all ([] : List Char) h0
        simpa using h1
      rw [this]
      rfl
    | cons c s' =>
      rw [List.append_assoc, dropWhile_append_all _ hq1]
      rw [dropWhile_eq_self_of_head (by intro d hd; exact hh d (by simpa using hd))]
      exact dropEndWhile_append_all hq2 hl
  · decide

/-- Witness for C2 at a concrete input (interior quote preserved, both
surrounding layers removed). -/
theorem spec_c2_witness :
    stripQuotesL (['"', '"'] ++ ['a', '"', 'b'] ++ ['\'']) = ['a', '"', 'b'] :=
  spec_c2.1 ['a', '"', 'b'] ['"', '"'] ['\''] (by decide) (by decide) (by decide) (by decide)

/-- C9 counterexample: a straight-double-quoted span with empty content
(`""`) lies entirely within one line yet is emitted unchanged — the
rewriting applies only to spans with at least one character of content. -/
theorem spec_c9_counterexample :
    segsWithRole .body (buildDocument { body := .list ["say \"\" now"] }) =
      [Seg.text .body "say \"\" now" BODY_FONT BODY_SIZE false (some .justify)
        (some TWO_CHAR_INDENT) none] ∧
      ("say \"\" now" : String) ≠ "say “” now" := by
  constructor
  · decide
  · decide

/-- C9 (amended): in every emitted paragraph text, each straight
double-quoted span with non-empty single-line content is rewritten to
curly quotes, characters outside such spans are unchanged, a whole-line
straight-quoted span containing a line break is left entirely untouched,
and a span with empty content is left unchanged. -/
theorem spec_c9 :
    (∀ pre content suf : List Char, '"' ∉ pre → '"' ∉ content → '\n' ∉ content →
        content ≠ [] →
        nqL (pre ++ '"' :: content ++ '"' :: suf) =
          pre ++ '“' :: content ++ '”' :: nqL suf) ∧
      (∀ l : List Char, '"' ∉ l → nqL l = l) ∧
      (∀ c1 c2 : List Char, '"' ∉ c1 → '\n' ∉ c1 → '"' ∉ c2 →
        nqL ('"' :: (c1 ++ '\n' :: (c2 ++ ['"']))) = '"' :: (c1 ++ '\n' :: (c2 ++ ['"']))) ∧
      segsWithRole .body (buildDocument { body := .list ["He said \"hello\""] }) =
        [Seg.text .body "He said “hello”" BODY_FONT BODY_SIZE false (some .justify)
          (some TWO_CHAR_INDENT) none] := by
  refine ⟨?_, ?_, ?_, by decide⟩
  · intro pre content suf hpre hc1 hc2 hne
    induction pre with
    | nil =>
      simp only [List.nil_append]
      exact nqL_quote_pair content suf
        (by
          intro x hx
          have hx1 : x ≠ '"' := fun h => hc1 (h ▸ hx)
          have hx2 : x ≠ '\n' := fun h => hc2 (h ▸ hx)
          simp [nqPred, hx1, hx2])
        hne
    | cons a pre' ih =>
      have ha : a ≠ '"' := fun h => hpre (by simp [h])
      simp only [List.cons_append]
      rw [nqL_cons_ne _ ha, ih (fun h => hpre (by simp [h]))]
  · intro l h
    exact nqL_no_quote h
  · intro c1 c2 h1 h2 h3
    unfold nqL
    show nqFuel ((c1 ++ '\n' :: (c2 ++ ['"'])).length + 1) _ = _
    simp only [nqFuel, if_pos rfl]
    have htake : (c1 ++ '\n' :: (c2 ++ ['"'])).takeWhile nqPred = c1 :=
      takeWhile_append_sat '\n' (c2 ++ ['"'])
        (by
          intro x hx
          have hx1 : x ≠ '"' := fun h => h1 (h ▸ hx)
          have hx2 : x ≠ '\n' := fun h => h2 (h ▸ hx)
          simp [nqPred, hx1, hx2])
        (by simp [nqPred])
    rw [htake, List.drop_left]
    rw [if_pos trivial, if_neg (by rintro ⟨-, hx⟩; simp at hx)]
    have hfuel : nqFuel (c1 ++ '\n' :: (c2 ++ ['"'])).length (c1 ++ '\n' :: (c2 ++ ['"'])) =
        nqL (c1 ++ '\n' :: (c2 ++ ['"'])) := rfl
    rw [hfuel]
    have hX : c1 ++ '\n' :: (c2 ++ ['"']) = (c1 ++ '\n' :: c2) ++ ['"'] := by simp
    rw [hX, nqL_append_quote_end (by
      intro hmem
      rcases List.mem_append.1 hmem with hm | hm
      · exact h1 hm
      · rcases List.mem_cons.1 hm with hm2 | hm2
        · exact absurd hm2.symm (by decide)
        · exact h3 hm2)]

/-- Witness for C9 at a concrete input. -/
theorem spec_c9_witness :
    nqL (['o'] ++ '"' :: ['h', 'i'] ++ '"' :: ['!']) =
      ['o'] ++ '“' :: ['h', 'i'] ++ '”' :: nqL ['!'] :=
  spec_c9.1 ['o'] ['h', 'i'] ['!'] (by decide) (by decide) (by decide) (by decide)

/-! ### Lemmas about the block parser -/

theorem hashRun_pos_head {l : List Char} (h : 1 ≤ hashRun l) : l.head? = some '#' := by
  cases l with
  | nil => simp [hashRun] at h
  | cons c t =>
    by_cases hc : c = '#'
    · simp [hc]
    · simp [hashRun, List.takeWhile_cons, hc] at h

theorem pyLStripL_eq_self {l : List Char}
    (h : ∀ c, l.head? = some c → isPySpace c = false) : pyLStripL l = l :=
  dropWhile_eq_self_of_head h

theorem pyStripL_eq_self {l : List Char}
    (hh : ∀ c, l.head? = some c → isPySpace c = false) (hr : pyRStripL l = l) :
    pyStripL l = l := by
  unfold pyStripL
  rw [pyLStripL_eq_self hh]
  exact hr

theorem pyStrip_drop_of_rstripped {l : List Char} (hr : pyRStripL l = l) (n : Nat) :
    pyStripL (l.drop n) = pyLStripL (l.drop n) := by
  unfold pyStripL
  by_cases hm : pyLStripL (l.drop n) = []
  · rw [hm]; rfl
  · apply dropEndWhile_eq_self
    intro c hc
    have hdrop_ne : l.drop n ≠ [] := by
      intro h0
      rw [h0] at hm
      exact hm rfl
    have e1 : (l.drop n).getLast? = some c := by
      have hsplit : List.takeWhile isPySpace (l.drop n) ++ List.dropWhile isPySpace (l.drop n) = l.drop n :=
        List.takeWhile_append_dropWhile isPySpace (l.drop n)
      have hm2 : List.dropWhile isPySpace (l.drop n) ≠ [] := hm
      rw [← hsplit, List.getLast?_append_of_ne_nil _ hm2]
      exact hc
    have e2 : l.getLast? = some c := by
      have htd : l.take n ++ l.drop n = l := List.take_append_drop n l
      rw [← htd, List.getLast?_append_of_ne_nil _ hdrop_ne]
      exact e1
    exact getLast?_false_of_dropEnd_self hr c e2

/-- C3: classification of a post-front-matter body line (already stripped
of trailing whitespace): a leading run of 1-5 `#` with non-whitespace
content after it yields `h{level}` whose text is the remainder trimmed;
a longer run or no trailing content yields a plain paragraph carrying the
entire line, leading hashes included.  The three exemplar lines classify
as `h1 "Notice"`, `h5 "Deep"` and a paragraph `"######Too Deep"`. -/
theorem spec_c3 :
    (∀ l : List Char, pyRStripL l = l →
      (1 ≤ hashRun l → hashRun l ≤ 5 → pyLStripL (l.drop (hashRun l)) ≠ [] →
        classifyLine l =
          ⟨"h" ++ toString (hashRun l), String.mk (pyStripL (l.drop (hashRun l)))⟩) ∧
      (1 ≤ hashRun l → (5 < hashRun l ∨ pyLStripL (l.drop (hashRun l)) = []) →
        classifyLine l = ⟨"p", String.mk l⟩)) ∧
    parseBlocks "# Notice" = [⟨"h1", "Notice"⟩] ∧
    parseBlocks "#####Deep" = [⟨"h5", "Deep"⟩] ∧
    parseBlocks "######Too Deep" = [⟨"p", "######Too Deep"⟩] := by
  refine ⟨?_, by decide, by decide, by decide⟩
  intro l hr
  constructor
  · intro h1 h5 hc
    have hhead := hashRun_pos_head h1
    have hstrip := pyStrip_drop_of_rstripped hr (hashRun l)
    unfold classifyLine
    rw [hhead]
    rw [if_pos (by decide), if_pos ⟨h1, h5⟩, if_pos hc, hstrip]
  · intro h1 hcase
    have hhead := hashRun_pos_head h1
    have hself : pyStripL l = l := by
      apply pyStripL_eq_self _ hr
      intro c hcc
      rw [hhead] at hcc
      obtain rfl : '#' = c := by simpa using hcc
      decide
    unfold classifyLine
    rw [hhead, if_pos (by decide)]
    rcases hcase with hgt | hempty
    · rw [if_neg (by omega), hself]
    · by_cases hrange : 1 ≤ hashRun l ∧ hashRun l ≤ 5
      · rw [if_pos hrange, if_neg (by simpa using hempty), hself]
      · rw [if_neg hrange, hself]

/-- Witness for C3 at a concrete input. -/
theorem spec_c3_witness :
    classifyLine "#Hello".data =
      ⟨"h" ++ toString (hashRun "#Hello".data),
        String.mk (pyStripL ("#Hello".data.drop (hashRun "#Hello".data)))⟩ :=
  (spec_c3.1 "#Hello".data (by decide)).1 (by decide) (by decide) (by decide)

/-! ### Structure of `build_document` -/

/-- The body-side half of the emitted sequence: title, recipient line and
body content.  Depends only on `title`, `recipients` and — according to the
path taken — on `blocks` (blocks path) or `body` (flat path). -/
def bodyHalf (data : InputData) : List Seg :=
  match data.blocks with
  | some (b :: bs) =>
    titlePart (b :: bs) (pyStrip (fvStr data.title)) ++
      recipientPart (normalizeRecipients data.recipients) ++ blocksBody (b :: bs) false
  | _ =>
    (if pyStrip (fvStr data.title) ≠ "" then
      [addTextParagraph .title (pyStrip (fvStr data.title)) TITLE_FONT TITLE_SIZE
        (some .center) none none, .blank]
     else []) ++
    recipientPart (normalizeRecipients data.recipients) ++
    flatBodySegs (normalizeBody data.body)

/-- The shared scalar tail of the emitted sequence: attachments, signer,
date and footer.  Depends only on `attachments`, `signer` and `date`. -/
def sharedTail (data : InputData) : List Seg :=
  attachPart (normalizeList data.attachments) ++
    signDatePart (pyStrip (fvStr data.signer)) (pyStrip (fvStr data.date)) ++ [.footer]

theorem buildDocument_decomp (data : InputData) :
    buildDocument data = bodyHalf data ++ sharedTail data := by
  cases data with
  | mk ti re bo at_ si da bl =>
    cases bl with
    | none => simp [buildDocument, bodyHalf, sharedTail, List.append_assoc]
    | some l =>
      cases l with
      | nil => simp [buildDocument, bodyHalf, sharedTail, List.append_assoc]
      | cons b bs => simp [buildDocument, bodyHalf, sharedTail, List.append_assoc]

/-- C6: exactly one body representation drives rendering — when `blocks` is
a non-empty list the flat `body` field is ignored entirely; when `blocks`
is absent or empty the body comes from the flat `body` field; in both paths
the emitted sequence splits into a body half (title, recipients, body
content) followed by a tail built only from the shared scalar fields
`attachments`, `signer` and `date`. -/
theorem spec_c6 :
    (∀ (data : InputData) (bs : List Block) (bv : FieldVal),
        data.blocks = some bs → bs ≠ [] →
        buildDocument { data with body := bv } = buildDocument data) ∧
      (∀ (data : InputData) (obs : Option (List Block)),
        (data.blocks = none ∨ data.blocks = some []) →
        (obs = none ∨ obs = some []) →
        buildDocument { data with blocks := obs } = buildDocument data) ∧
      (∀ data : InputData, buildDocument data = bodyHalf data ++ sharedTail data) := by
  refine ⟨?_, ?_, buildDocument_decomp⟩
  · intro data bs bv hb hne
    obtain ⟨b, bs2, rfl⟩ : ∃ b bs2, bs = b :: bs2 := by
      cases bs with
      | nil => exact absurd rfl hne
      | cons x xs => exact ⟨x, xs, rfl⟩
    cases data with
    | mk ti re bo at_ si da bl =>
      dsimp only at hb
      subst hb
      rfl
  · intro data obs hd ho
    cases data with
    | mk ti re bo at_ si da bl =>
      dsimp only at hd
      rcases hd with rfl | rfl <;> rcases ho with rfl | rfl <;> rfl

/-- Witness for C6 at a concrete input. -/
theorem spec_c6_witness :
    buildDocument { body := FieldVal.str "ignored", blocks := some [⟨"p", "x"⟩] } =
      buildDocument { blocks := some [⟨"p", "x"⟩] } :=
  spec_c6.1 { blocks := some [⟨"p", "x"⟩] } [⟨"p", "x"⟩] (.str "ignored") rfl (by decide)

/-- The concrete record of C1: a caller title override together with a
block sequence holding its own `h1`. -/
def dC1 : InputData :=
  { title := .str "Override",
    blocks := some [⟨"h1", "BlockTitle"⟩, ⟨"p", "Body line"⟩] }

/-- C1 counterexample: with a caller-supplied title override and a block
sequence containing an `h1`, the emitted title segment carries the block's
heading text, not the override; the override text appears nowhere in the
output. -/
theorem spec_c1_counterexample :
    (buildDocument dC1).head? =
      some (Seg.text .title "BlockTitle" TITLE_FONT TITLE_SIZE false (some .center) none none) ∧
      ("BlockTitle" : String) ≠ "Override" ∧
      ((buildDocument dC1).all (fun s => textOf? s != some "Override")) = true := by
  refine ⟨by decide, by decide, by decide⟩

/-- C1 (amended): in the blocks path the title is decided by the first
`h1` block alone.  (i) When the first `h1` block's stripped text is
non-empty, the emitted title segment carries that text and the caller
override stored in the record's `title` field is ignored.  (ii) When the
first `h1` block's stripped text is empty, the (non-empty) override is
emitted as the title, even if a later `h1` in the sequence has non-empty
text.  (iii) When the blocks contain no `h1` at all, the (non-empty)
override is likewise emitted as the title. -/
theorem spec_c1 :
    (∀ (data : InputData) (bs : List Block) (b : Block),
        data.blocks = some bs → bs ≠ [] →
        bs.find? (fun x => x.type_ == "h1") = some b → pyStrip b.text ≠ "" →
        (buildDocument data).head? =
          some (Seg.text .title (normalizeQuotes (pyStrip b.text)) TITLE_FONT TITLE_SIZE false
            (some .center) none none)) ∧
      (∀ (data : InputData) (bs : List Block) (b : Block),
        data.blocks = some bs → bs ≠ [] →
        bs.find? (fun x => x.type_ == "h1") = some b → pyStrip b.text = "" →
        pyStrip (fvStr data.title) ≠ "" →
        (buildDocument data).head? =
          some (Seg.text .title (normalizeQuotes (pyStrip (fvStr data.title))) TITLE_FONT
            TITLE_SIZE false (some .center) none none)) ∧
      (∀ (data : InputData) (bs : List Block),
        data.blocks = some bs → bs ≠ [] →
        bs.find? (fun x => x.type_ == "h1") = none →
        pyStrip (fvStr data.title) ≠ "" →
        (buildDocument data).head? =
          some (Seg.text .title (normalizeQuotes (pyStrip (fvStr data.title))) TITLE_FONT
            TITLE_SIZE false (some .center) none none)) := by
  refine ⟨?_, ?_, ?_⟩
  · intro data bs b hB hne hfind ht
    obtain ⟨b0, bs2, rfl⟩ : ∃ b0 bs2, bs = b0 :: bs2 := by
      cases bs with
      | nil => exact absurd rfl hne
      | cons x xs => exact ⟨x, xs, rfl⟩
    rw [buildDocument_decomp]
    unfold bodyHalf
    rw [hB]
    dsimp only
    unfold titlePart
    rw [hfind]
    dsimp only
    rw [if_pos ht]
    simp [addTextParagraph, show (TITLE_FONT == SUBTITLE_FONT) = false by decide]
  · intro data bs b hB hne hfind ht htitle
    obtain ⟨b0, bs2, rfl⟩ : ∃ b0 bs2, bs = b0 :: bs2 := by
      cases bs with
      | nil => exact absurd rfl hne
      | cons x xs => exact ⟨x, xs, rfl⟩
    rw [buildDocument_decomp]
    unfold bodyHalf
    rw [hB]
    dsimp only
    unfold titlePart
    rw [hfind]
    dsimp only
    rw [if_neg (by simp [ht]), if_pos htitle]
    simp [addTextParagraph, show (TITLE_FONT == SUBTITLE_FONT) = false by decide]
  · intro data bs hB hne hfind htitle
    obtain ⟨b0, bs2, rfl⟩ : ∃ b0 bs2, bs = b0 :: bs2 := by
      cases bs with
      | nil => exact absurd rfl hne
      | cons x xs => exact ⟨x, xs, rfl⟩
    rw [buildDocument_decomp]
    unfold bodyHalf
    rw [hB]
    dsimp only
    unfold titlePart
    rw [hfind]
    dsimp only
    rw [if_pos htitle]
    simp [addTextParagraph, show (TITLE_FONT == SUBTITLE_FONT) = false by decide]

/-- The second concrete record of C1: an override together with a blank
first `h1` and a non-blank second `h1`. -/
def dC1b : InputData :=
  { title := .str "O", blocks := some [⟨"h1", "  "⟩, ⟨"h1", "X"⟩] }

/-- Witness for C1 at concrete inputs: conjunct (i) at `dC1`, and conjunct
(ii) at `dC1b`, whose first `h1` is blank but whose second `h1` is not —
there the override wins. -/
theorem spec_c1_witness :
    (buildDocument dC1).head? =
      some (Seg.text .title (normalizeQuotes (pyStrip "BlockTitle")) TITLE_FONT TITLE_SIZE false
        (some .center) none none) ∧
      (buildDocument dC1b).head? =
        some (Seg.text .title
          (normalizeQuotes (pyStrip (fvStr (FieldVal.str "O")))) TITLE_FONT
          TITLE_SIZE false (some .center) none none) :=
  ⟨spec_c1.1 dC1 [⟨"h1", "BlockTitle"⟩, ⟨"p", "Body line"⟩] ⟨"h1", "BlockTitle"⟩ rfl
      (by decide) (by decide) (by decide),
    spec_c1.2.1 dC1b [⟨"h1", "  "⟩, ⟨"h1", "X"⟩] ⟨"h1", "  "⟩ rfl (by decide) (by decide)
      (by decide) (by decide)⟩

/-! ### Per-part characterization of the emitted segments -/

/-- Bold is set exactly when the font is the subtitle face — the invariant
`_add_text_paragraph` maintains. -/
def boldOk : Seg → Prop
  | .text _ _ f _ b _ _ _ => b = (f == SUBTITLE_FONT)
  | _ => True

/-- Does this segment carry the title font? -/
def isTitleFontSeg (s : Seg) : Bool := fontOf? s == some TITLE_FONT

theorem boldOk_addText (r : Role) (t f : String) (sz : Nat) (al : Option Align)
    (fi li : Option Nat) : boldOk (addTextParagraph r t f sz al fi li) := rfl

theorem boldOk_blank : boldOk .blank := trivial

theorem boldOk_footer : boldOk .footer := trivial

theorem headingStyleMap_font_ne (lv : Int) (st : HStyle) (h : headingStyleMap lv = some st)
    (h1 : lv ≠ 1) : st.font ≠ TITLE_FONT := by
  unfold headingStyleMap at h
  split_ifs at h with e1 e2 e3 e4 e5
  all_goals first
    | exact absurd e1 h1
    | (cases h; decide)

theorem chooseFont_ne_title (t : String) : chooseFontForParagraph t ≠ TITLE_FONT := by
  unfold chooseFontForParagraph
  split_ifs <;> decide

/-- Every block-body segment is an `addTextParagraph` with role `body` and
a font other than the title face. -/
theorem renderBlock_shape (bt t : String) :
    ∃ (f : String) (sz : Nat) (al : Option Align) (fi : Option Nat),
      renderBlock bt t = addTextParagraph .body t f sz al fi none ∧ f ≠ TITLE_FONT := by
  unfold renderBlock
  by_cases hcond : bt ≠ "" ∧ bt.data.head? == some 'h'
  · rw [if_pos hcond]
    cases hmap : headingStyleMap ((pyIntParse (bt.drop 1)).getD 0) with
    | none =>
      exact ⟨BODY_FONT, BODY_SIZE, none, some TWO_CHAR_INDENT, rfl, by decide⟩
    | some st =>
      dsimp only
      by_cases hlv : ((pyIntParse (bt.drop 1)).getD 0 : Int) ≠ 1
      · rw [if_pos hlv]
        exact ⟨st.font, st.size, some st.align, st.indent, rfl,
          headingStyleMap_font_ne _ _ hmap hlv⟩
      · rw [if_neg hlv]
        exact ⟨BODY_FONT, BODY_SIZE, none, some TWO_CHAR_INDENT, rfl, by decide⟩
  · rw [if_neg hcond]
    exact ⟨BODY_FONT, BODY_SIZE, some .justify, some TWO_CHAR_INDENT, rfl, by decide⟩

theorem addText_role_ne_attach (r : Role) (t f : String) (sz : Nat) (al : Option Align)
    (fi li : Option Nat) (hr : r ≠ Role.attachment) :
    (roleOf? (addTextParagraph r t f sz al fi li) == some Role.attachment) = false := by
  have : roleOf? (addTextParagraph r t f sz al fi li) = some r := rfl
  rw [this]
  simp [hr]

theorem addText_font_ne_title (r : Role) (t f : String) (sz : Nat) (al : Option Align)
    (fi li : Option Nat) (hf : f ≠ TITLE_FONT) :
    isTitleFontSeg (addTextParagraph r t f sz al fi li) = false := by
  have : fontOf? (addTextParagraph r t f sz al fi li) = some f := rfl
  unfold isTitleFontSeg
  rw [this]
  simp [hf]

theorem titlePart_mem {bs : List Block} {ti : String} {seg : Seg}
    (h : seg ∈ titlePart bs ti) :
    boldOk seg ∧ (roleOf? seg == some Role.attachment) = false := by
  have hshape : seg = Seg.blank ∨
      ∃ t, seg = addTextParagraph .title t TITLE_FONT TITLE_SIZE (some .center) none none := by
    unfold titlePart at h
    cases hf : bs.find? (fun b => b.type_ == "h1") with
    | some b =>
      simp only [hf] at h
      split_ifs at h
      · simp at h
        rcases h with h | h
        · exact Or.inr ⟨_, h⟩
        · exact Or.inl h
      · simp at h
        rcases h with h | h
        · exact Or.inr ⟨_, h⟩
        · exact Or.inl h
      · simp at h
    | none =>
      simp only [hf] at h
      split_ifs at h
      · simp at h
        rcases h with h | h
        · exact Or.inr ⟨_, h⟩
        · exact Or.inl h
      · simp at h
  rcases hshape with rfl | ⟨t, rfl⟩
  · exact ⟨trivial, rfl⟩
  · exact ⟨boldOk_addText .., addText_role_ne_attach _ _ _ _ _ _ _ (by decide)⟩

theorem recipientPart_mem {r : String} {seg : Seg} (h : seg ∈ recipientPart r) :
    boldOk seg ∧ (roleOf? seg == some Role.attachment) = false ∧
      isTitleFontSeg seg = false := by
  unfold recipientPart at h
  split_ifs at h <;> simp at h
  subst h
  exact ⟨boldOk_addText .., addText_role_ne_attach _ _ _ _ _ _ _ (by decide),
    addText_font_ne_title _ _ _ _ _ _ _ (by decide)⟩

theorem blocksBody_mem {bs : List Block} {sk : Bool} {seg : Seg}
    (h : seg ∈ blocksBody bs sk) :
    boldOk seg ∧ (roleOf? seg == some Role.attachment) = false ∧
      isTitleFontSeg seg = false := by
  induction bs generalizing sk with
  | nil => simp [blocksBody] at h
  | cons b rest ih =>
    simp only [blocksBody] at h
    split_ifs at h with h1 h2
    · exact ih h
    · exact ih h
    · rcases List.mem_cons.1 h with rfl | hmem
      · obtain ⟨f, sz, al, fi, heq, hf⟩ := renderBlock_shape b.type_ (pyStrip b.text)
        rw [heq]
        exact ⟨boldOk_addText .., addText_role_ne_attach _ _ _ _ _ _ _ (by decide),
          addText_font_ne_title _ _ _ _ _ _ _ hf⟩
      · exact ih hmem

theorem flatBodySegs_mem {body : List String} {seg : Seg} (h : seg ∈ flatBodySegs body) :
    boldOk seg ∧ (roleOf? seg == some Role.attachment) = false ∧
      isTitleFontSeg seg = false := by
  unfold flatBodySegs at h
  rcases List.mem_map.1 h with ⟨t, _, rfl⟩
  exact ⟨boldOk_addText .., addText_role_ne_attach _ _ _ _ _ _ _ (by decide),
    addText_font_ne_title _ _ _ _ _ _ _ (chooseFont_ne_title t)⟩

theorem attachPart_mem {atts : List String} {seg : Seg} (h : seg ∈ attachPart atts) :
    boldOk seg ∧ isTitleFontSeg seg = false := by
  have hshape : seg = Seg.blank ∨
      ∃ t, seg = addTextParagraph .attachment t BODY_FONT BODY_SIZE none none
        (some TWO_CHAR_INDENT) := by
    unfold attachPart at h
    cases atts with
    | nil => simp at h
    | cons a rest =>
      cases rest with
      | nil =>
        simp at h
        rcases h with h | h
        · exact Or.inl h
        · exact Or.inr ⟨_, h⟩
      | cons b rest2 =>
        rcases List.mem_cons.1 h with rfl | hmem
        · exact Or.inl rfl
        · rcases List.mem_map.1 hmem with ⟨p, _, rfl⟩
          exact Or.inr ⟨_, rfl⟩
  rcases hshape with rfl | ⟨t, rfl⟩
  · exact ⟨trivial, rfl⟩
  · exact ⟨boldOk_addText .., addText_font_ne_title _ _ _ _ _ _ _ (by decide)⟩

theorem signDatePart_mem {si da : String} {seg : Seg} (h : seg ∈ signDatePart si da) :
    boldOk seg ∧ (roleOf? seg == some Role.attachment) = false ∧
      isTitleFontSeg seg = false := by
  have conc : ∀ s : Seg,
      (s = Seg.blank ∨
        (∃ t, s = addTextParagraph .signer t BODY_FONT BODY_SIZE (some .right) none none) ∨
        (∃ t, s = addTextParagraph .date t BODY_FONT BODY_SIZE (some .right) none none)) →
      boldOk s ∧ (roleOf? s == some Role.attachment) = false ∧ isTitleFontSeg s = false := by
    rintro s (rfl | ⟨t, rfl⟩ | ⟨t, rfl⟩)
    · exact ⟨trivial, rfl, rfl⟩
    · exact ⟨boldOk_addText .., addText_role_ne_attach _ _ _ _ _ _ _ (by decide),
        addText_font_ne_title _ _ _ _ _ _ _ (by decide)⟩
    · exact ⟨boldOk_addText .., addText_role_ne_attach _ _ _ _ _ _ _ (by decide),
        addText_font_ne_title _ _ _ _ _ _ _ (by decide)⟩
  apply conc
  unfold signDatePart at h
  by_cases h1 : si ≠ "" ∨ da ≠ ""
  · rw [if_pos h1] at h
    rcases List.mem_cons.1 h with rfl | hmem
    · exact Or.inl rfl
    · rcases List.mem_append.1 hmem with hm | hm
      · by_cases h2 : si ≠ ""
        · rw [if_pos h2] at hm
          simp at hm
          subst hm
          exact Or.inr (Or.inl ⟨_, rfl⟩)
        · rw [if_neg h2] at hm
          simp at hm
      · by_cases h3 : da ≠ ""
        · rw [if_pos h3] at hm
          simp at hm
          subst hm
          exact Or.inr (Or.inr ⟨_, rfl⟩)
        · rw [if_neg h3] at hm
          simp at hm
  · rw [if_neg h1] at h
    simp at h

/-- Every segment of `bodyHalf` is bold-correct and never attachment-role. -/
theorem bodyHalf_mem {data : InputData} {seg : Seg} (h : seg ∈ bodyHalf data) :
    boldOk seg ∧ (roleOf? seg == some Role.attachment) = false := by
  unfold bodyHalf at h
  cases hb : data.blocks with
  | some l =>
    simp only [hb] at h
    cases l with
    | nil =>
      rcases List.mem_append.1 h with hm | hm
      · rcases List.mem_append.1 hm with hm2 | hm2
        · split_ifs at hm2 <;> simp at hm2
          rcases hm2 with rfl | rfl
          · exact ⟨boldOk_addText .., addText_role_ne_attach _ _ _ _ _ _ _ (by decide)⟩
          · exact ⟨trivial, rfl⟩
        · exact ⟨(recipientPart_mem hm2).1, (recipientPart_mem hm2).2.1⟩
      · exact ⟨(flatBodySegs_mem hm).1, (flatBodySegs_mem hm).2.1⟩
    | cons b bs =>
      rcases List.mem_append.1 h with hm | hm
      · rcases List.mem_append.1 hm with hm2 | hm2
        · exact titlePart_mem hm2
        · exact ⟨(recipientPart_mem hm2).1, (recipientPart_mem hm2).2.1⟩
      · exact ⟨(blocksBody_mem hm).1, (blocksBody_mem hm).2.1⟩
  | none =>
    simp only [hb] at h
    rcases List.mem_append.1 h with hm | hm
    · rcases List.mem_append.1 hm with hm2 | hm2
      · split_ifs at hm2 <;> simp at hm2
        rcases hm2 with rfl | rfl
        · exact ⟨boldOk_addText .., addText_role_ne_attach _ _ _ _ _ _ _ (by decide)⟩
        · exact ⟨trivial, rfl⟩
      · exact ⟨(recipientPart_mem hm2).1, (recipientPart_mem hm2).2.1⟩
    · exact ⟨(flatBodySegs_mem hm).1, (flatBodySegs_mem hm).2.1⟩

theorem sharedTail_mem {data : InputData} {seg : Seg} (h : seg ∈ sharedTail data) :
    boldOk seg ∧ isTitleFontSeg seg = false := by
  unfold sharedTail at h
  rcases List.mem_append.1 h with hm | hm
  · rcases List.mem_append.1 hm with hm2 | hm2
    · exact attachPart_mem hm2
    · exact ⟨(signDatePart_mem hm2).1, (signDatePart_mem hm2).2.2⟩
  · simp at hm
    subst hm
    exact ⟨trivial, rfl⟩

/-! ### Demotion of later h1 blocks (C4) -/

/-- Remove the first `h1` block (the one consumed by the title section). -/
def eraseFirstH1 : List Block → List Block
  | [] => []
  | b :: rest => if b.type_ == "h1" then rest else b :: eraseFirstH1 rest

theorem blocksBody_true_map (bs : List Block) (h : ∀ b ∈ bs, pyStrip b.text ≠ "") :
    blocksBody bs true = bs.map (fun b => renderBlock b.type_ (pyStrip b.text)) := by
  induction bs with
  | nil => rfl
  | cons b rest ih =>
    have hb : ¬ pyStrip b.text = "" := h b (by simp)
    simp only [blocksBody, List.map_cons, if_neg hb, Bool.not_true, Bool.and_false,
      Bool.false_eq_true, if_false]
    rw [ih (fun x hx => h x (by simp [hx]))]

theorem blocksBody_false_erase (bs : List Block) (h : ∀ b ∈ bs, pyStrip b.text ≠ "") :
    blocksBody bs false =
      (eraseFirstH1 bs).map (fun b => renderBlock b.type_ (pyStrip b.text)) := by
  induction bs with
  | nil => rfl
  | cons b rest ih =>
    have hb : ¬ pyStrip b.text = "" := h b (by simp)
    have h2 : ∀ x ∈ rest, pyStrip x.text ≠ "" := fun x hx => h x (by simp [hx])
    by_cases hh : (b.type_ == "h1") = true
    · simp only [blocksBody, eraseFirstH1, if_neg hb, hh, Bool.not_false, Bool.and_true,
        if_true, if_pos hh]
      exact blocksBody_true_map rest h2
    · simp only [blocksBody, eraseFirstH1, if_neg hb, List.map_cons]
      rw [if_neg (by simp [hh]), if_neg (by simp at hh ⊢; exact hh), ih h2, List.map_cons]

theorem renderBlock_h1 (t : String) :
    renderBlock "h1" t =
      Seg.text .body (normalizeQuotes t) BODY_FONT BODY_SIZE false none
        (some TWO_CHAR_INDENT) none := rfl

/-- The concrete record of C4: two `h1` blocks followed by a paragraph. -/
def dC4 : InputData :=
  { blocks := some [⟨"h1", "T"⟩, ⟨"h1", "Second"⟩, ⟨"p", "Para"⟩] }

/-- C4 counterexample: the demoted second `h1` is emitted with the body
font, size and first-line indent but with no alignment set, whereas a plain
paragraph block is justified — so it does not receive exactly the plain
paragraph treatment. -/
theorem spec_c4_counterexample :
    buildDocument dC4 =
      [Seg.text .title "T" TITLE_FONT TITLE_SIZE false (some .center) none none, .blank,
       Seg.text .body "Second" BODY_FONT BODY_SIZE false none (some TWO_CHAR_INDENT) none,
       Seg.text .body "Para" BODY_FONT BODY_SIZE false (some .justify) (some TWO_CHAR_INDENT) none,
       .footer] ∧
      Seg.text .body "Second" BODY_FONT BODY_SIZE false none (some TWO_CHAR_INDENT) none ≠
        Seg.text .body "Second" BODY_FONT BODY_SIZE false (some .justify)
          (some TWO_CHAR_INDENT) none := by
  refine ⟨by decide, by decide⟩

/-- C4 (amended): in a block sequence with more than one `h1`, every
subsequent `h1` (any `h1` surviving removal of the first) is rendered as an
ordinary body paragraph — body font, body size, two-character first-line
indent, never a second title (at most one emitted segment ever carries the
title font), never dropped — but with unset alignment rather than the
justified alignment given to plain paragraph blocks. -/
theorem spec_c4 :
    (∀ (data : InputData) (bs : List Block) (b : Block),
        data.blocks = some bs → bs ≠ [] → (∀ x ∈ bs, pyStrip x.text ≠ "") →
        b ∈ eraseFirstH1 bs → b.type_ = "h1" →
        Seg.text .body (normalizeQuotes (pyStrip b.text)) BODY_FONT BODY_SIZE false none
          (some TWO_CHAR_INDENT) none ∈ buildDocument data) ∧
      (∀ data : InputData, (buildDocument data).countP isTitleFontSeg ≤ 1) := by
  constructor
  · intro data bs b hB hne htexts hmem htype
    obtain ⟨b0, bs2, rfl⟩ : ∃ b0 bs2, bs = b0 :: bs2 := by
      cases bs with
      | nil => exact absurd rfl hne
      | cons x xs => exact ⟨x, xs, rfl⟩
    rw [buildDocument_decomp]
    apply List.mem_append.2
    left
    unfold bodyHalf
    simp only [hB]
    apply List.mem_append.2
    right
    rw [blocksBody_false_erase _ htexts]
    apply List.mem_map.2
    refine ⟨b, hmem, ?_⟩
    rw [htype, renderBlock_h1]
  · intro data
    rw [buildDocument_decomp, List.countP_append]
    have htail : (sharedTail data).countP isTitleFontSeg = 0 :=
      List.countP_eq_zero.2 (fun s hs => by simp [(sharedTail_mem hs).2])
    rw [htail, Nat.add_zero]
    have hrec : ∀ r : String, (recipientPart r).countP isTitleFontSeg = 0 := fun r =>
      List.countP_eq_zero.2 (fun s hs => by simp [(recipientPart_mem hs).2.2])
    have hbb : ∀ (bs : List Block) (sk : Bool),
        (blocksBody bs sk).countP isTitleFontSeg = 0 := fun bs sk =>
      List.countP_eq_zero.2 (fun s hs => by simp [(blocksBody_mem hs).2.2])
    have hfb : ∀ body : List String, (flatBodySegs body).countP isTitleFontSeg = 0 := fun bo =>
      List.countP_eq_zero.2 (fun s hs => by simp [(flatBodySegs_mem hs).2.2])
    have htp : ∀ (bs : List Block) (ti : String),
        (titlePart bs ti).countP isTitleFontSeg ≤ 1 := by
      intro bs ti
      unfold titlePart
      cases bs.find? (fun b => b.type_ == "h1") <;> dsimp only <;> split_ifs <;>
        simp [List.countP_cons, List.countP_nil, isTitleFontSeg, addTextParagraph, fontOf?]
    have hflatTitle : ∀ ti : String,
        ((if ti ≠ "" then
          [addTextParagraph .title ti TITLE_FONT TITLE_SIZE (some .center) none none, .blank]
         else []) : List Seg).countP isTitleFontSeg ≤ 1 := by
      intro ti
      split_ifs <;>
        simp [List.countP_cons, List.countP_nil, isTitleFontSeg, addTextParagraph, fontOf?]
    unfold bodyHalf
    cases data.blocks with
    | some l =>
      cases l with
      | nil =>
        rw [List.countP_append, List.countP_append, hrec, hfb]
        have := hflatTitle (pyStrip (fvStr data.title))
        omega
      | cons b bs =>
        rw [List.countP_append, List.countP_append, hrec, hbb]
        have := htp (b :: bs) (pyStrip (fvStr data.title))
        omega
    | none =>
      rw [List.countP_append, List.countP_append, hrec, hfb]
      have := hflatTitle (pyStrip (fvStr data.title))
      omega

/-- Witness for C4 at a concrete input. -/
theorem spec_c4_witness :
    Seg.text .body (normalizeQuotes (pyStrip "Second")) BODY_FONT BODY_SIZE false none
      (some TWO_CHAR_INDENT) none ∈ buildDocument dC4 :=
  spec_c4.1 dC4 [⟨"h1", "T"⟩, ⟨"h1", "Second"⟩, ⟨"p", "Para"⟩] ⟨"h1", "Second"⟩ rfl
    (by decide) (by decide) (by decide) (by decide)

/-! ### The bold invariant (C10) -/

theorem buildDocument_boldOk {data : InputData} {seg : Seg}
    (h : seg ∈ buildDocument data) : boldOk seg := by
  rw [buildDocument_decomp] at h
  rcases List.mem_append.1 h with hm | hm
  · exact (bodyHalf_mem hm).1
  · exact (sharedTail_mem hm).1

/-- C10: every text paragraph emitted by `build_document` is bold exactly
when its resolved font is the subtitle face 楷体_GB2312; paragraphs in the
title face, the level-2 heading face or the standard body face are never
bold. -/
theorem spec_c10 :
    ∀ (data : InputData) (role : Role) (t f : String) (sz : Nat) (b : Bool)
      (al : Option Align) (fli li : Option Nat),
      Seg.text role t f sz b al fli li ∈ buildDocument data →
      (b = true ↔ f = SUBTITLE_FONT) := by
  intro data role t f sz b al fli li h
  have hb : b = (f == SUBTITLE_FONT) := buildDocument_boldOk h
  rw [hb]
  simp

/-- The concrete record of C10. -/
def dC10 : InputData := { body := .list ["（甲）x"] }

/-- Witness for C10 at a concrete input (a subtitle-face paragraph, bold). -/
theorem spec_c10_witness : (true = true ↔ SUBTITLE_FONT = SUBTITLE_FONT) :=
  spec_c10 dC10 .body "（甲）x" SUBTITLE_FONT BODY_SIZE true (some .left)
    (some TWO_CHAR_INDENT) none (by decide)

/-! ### Attachment rendering (C8) -/

theorem segsWithRole_attach_eq (data : InputData) :
    segsWithRole .attachment (buildDocument data) =
      segsWithRole .attachment (attachPart (normalizeList data.attachments)) := by
  rw [buildDocument_decomp]
  unfold segsWithRole sharedTail
  rw [List.filter_append]
  have h1 : (bodyHalf data).filter (fun s => roleOf? s == some Role.attachment) = [] :=
    List.filter_eq_nil_iff.2 (fun s hs => by simp [(bodyHalf_mem hs).2])
  rw [h1, List.nil_append, List.filter_append, List.filter_append]
  have h2 : (signDatePart (pyStrip (fvStr data.signer)) (pyStrip (fvStr data.date))).filter
      (fun s => roleOf? s == some Role.attachment) = [] :=
    List.filter_eq_nil_iff.2 (fun s hs => by simp [(signDatePart_mem hs).2.1])
  have h3 : ([Seg.footer] : List Seg).filter (fun s => roleOf? s == some Role.attachment) = [] :=
    rfl
  rw [h2, h3, List.append_nil, List.append_nil]

/-- C8: with no attachments no attachment segment is emitted; a single
attachment emits one segment `附件：{name}`; two or more emit one segment
per attachment in order, labelled `附件：1. A`, then `    2. B` (four-space
lead), and so on — shown literally for `["A", "B"]`. -/
theorem spec_c8 :
    (∀ data : InputData, normalizeList data.attachments = [] →
        segsWithRole .attachment (buildDocument data) = []) ∧
      (∀ (data : InputData) (a : String), normalizeList data.attachments = [a] →
        segsWithRole .attachment (buildDocument data) =
          [addTextParagraph .attachment ("附件：" ++ a) BODY_FONT BODY_SIZE none none
            (some TWO_CHAR_INDENT)]) ∧
      (∀ (data : InputData) (atts : List String), normalizeList data.attachments = atts →
        2 ≤ atts.length →
        (segsWithRole .attachment (buildDocument data)).length = atts.length ∧
        ∀ (i : Nat) (n : String), atts.get? i = some n →
          (segsWithRole .attachment (buildDocument data)).get? i =
            some (addTextParagraph .attachment
              ((if i = 0 then "附件：" else "    ") ++ toString (i + 1) ++ ". " ++ n)
              BODY_FONT BODY_SIZE none none (some TWO_CHAR_INDENT))) ∧
      segsWithRole .attachment (buildDocument { attachments := .list ["A", "B"] }) =
        [Seg.text .attachment "附件：1. A" BODY_FONT BODY_SIZE false none none
          (some TWO_CHAR_INDENT),
         Seg.text .attachment "    2. B" BODY_FONT BODY_SIZE false none none
          (some TWO_CHAR_INDENT)] := by
  refine ⟨?_, ?_, ?_, by decide⟩
  · intro data h
    rw [segsWithRole_attach_eq, h]
    rfl
  · intro data a h
    rw [segsWithRole_attach_eq, h]
    rfl
  · intro data atts h hlen
    obtain ⟨a, b, rest, rfl⟩ : ∃ a b rest, atts = a :: b :: rest := by
      cases atts with
      | nil => simp at hlen
      | cons a r =>
        cases r with
        | nil => simp at hlen
        | cons b rest => exact ⟨a, b, rest, rfl⟩
    rw [segsWithRole_attach_eq, h]
    have hfilter : segsWithRole .attachment (attachPart (a :: b :: rest)) =
        (a :: b :: rest).enum.map (fun p =>
          addTextParagraph .attachment
            ((if p.1 + 1 = 1 then "附件：" else "    ") ++ toString (p.1 + 1) ++ ". " ++ p.2)
            BODY_FONT BODY_SIZE none none (some TWO_CHAR_INDENT)) := by
      show ((Seg.blank :: _).filter _) = _
      rw [List.filter_cons_of_neg (by decide)]
      rw [List.filter_map]
      congr 1
      exact List.filter_eq_self.2 (fun x _ => rfl)
    rw [hfilter]
    constructor
    · rw [List.length_map, List.enum_length]
    · intro i n hi
      rw [List.get?_map, List.get?_enum, hi]
      simp only [Option.map_some']
      by_cases hi0 : i = 0
      · subst hi0
        rfl
      · have h1 : ¬ (i + 1 = 1) := by omega
        rw [if_neg h1, if_neg hi0]

/-- Witness for C8 at a concrete input. -/
theorem spec_c8_witness :
    segsWithRole .attachment (buildDocument { attachments := .str "模板" }) =
      [addTextParagraph .attachment ("附件：" ++ "模板") BODY_FONT BODY_SIZE none none
        (some TWO_CHAR_INDENT)] :=
  spec_c8.2.1 { attachments := .str "模板" } "模板" (by decide)

end Gongwen

